import Mathlib

/-!
Verification of the karpenter consolidation subsystem.

Part 1 embeds pkg/controllers/provisioning/scheduling/topologygroup.go
(the TopologyGroup data structure and its topology-spread domain choice).
Part 2 models the consolidation decision engine from the design document
(the engine itself ships outside this tree; only its test suite is here),
and proves the documented invariants against that model.
-/

namespace Karpenter

/-! ### Part 1: TopologyGroup (embedded from topologygroup.go) -/

/-- A cluster node as consulted by the topology code: only its labels matter. -/
structure KNode where
  labels : List (String × String)

/-- A pod; the fields consulted by TopologyGroup.selects are abstracted into
the selects function stored on the group, so the pod itself is just a tag. -/
structure KPod where
  name : String

/-- The node-selector operators produced by nextDomainTopologySpread. -/
inductive ReqOp
  | opIn
  | opDoesNotExist
deriving DecidableEq

/-- scheduling.Requirement reduced to the shape used by topologygroup.go:
a label key, an operator and a value list. -/
structure Requirement where
  key : String
  op : ReqOp
  values : List String
deriving DecidableEq

/-- Requirement.Has: membership of a value. -/
def Requirement.Has (r : Requirement) (d : String) : Bool :=
  r.values.contains d

/-- scheduling.NewRequirement. -/
def NewRequirement (key : String) (op : ReqOp) (values : List String) : Requirement :=
  ⟨key, op, values⟩

/-- TopologyGroup (topologygroup.go lines 57 to 71).  The Go maps become
association lists; cluster, nodeFilter and selector become the data they
are consulted for: the node list, a node predicate and a pod predicate. -/
structure TopologyGroup where
  Key : String
  maxSkew : Int
  minDomains : Option Int
  domains : List (String × Int)
  emptyDomains : List String
  clusterNodes : List KNode
  nodeFilterMatches : KNode → Bool
  selects : KPod → Bool

/-- Lookup in a Go map modelled as an association list (first hit wins). -/
def lookupD : List (String × Int) → String → Option Int
  | [], _ => none
  | (k, v) :: rest, d => if k = d then some v else lookupD rest d

/-- The int32 wraparound of an integer, matching Go int32 overflow. -/
def wrap32 (x : Int) : Int :=
  (x + 2147483648) % 4294967296 - 2147483648

/-- The Go statement domains[domain]++ on the map[string]int32: increment
the entry with int32 wraparound, inserting the key with value 1 when
absent (Go maps yield the zero value on a miss). -/
def mapIncrement : List (String × Int) → String → List (String × Int)
  | [], d => [(d, 1)]
  | (k, v) :: rest, d =>
      if k = d then (k, wrap32 (v + 1)) :: rest else (k, v) :: mapIncrement rest d

/-- NewTopologyGroup (topologygroup.go lines 73 to 96): every initial domain
gets count 0 and starts empty. -/
def NewTopologyGroup (key : String) (maxSkew : Int) (minDomains : Option Int)
    (clusterNodes : List KNode) (nodeFilterMatches : KNode → Bool)
    (selects : KPod → Bool) (domains : List String) : TopologyGroup :=
  { Key := key
    maxSkew := maxSkew
    minDomains := minDomains
    domains := domains.map (fun d => (d, 0))
    emptyDomains := domains
    clusterNodes := clusterNodes
    nodeFilterMatches := nodeFilterMatches
    selects := selects }

/-- One step of TopologyGroup.Record (topologygroup.go lines 111 to 116). -/
def TopologyGroup.recordOne (t : TopologyGroup) (d : String) : TopologyGroup :=
  { t with
    domains := mapIncrement t.domains d
    emptyDomains := t.emptyDomains.filter (fun e => e ≠ d) }

/-- TopologyGroup.Record over its variadic argument list. -/
def TopologyGroup.Record (t : TopologyGroup) (ds : List String) : TopologyGroup :=
  ds.foldl TopologyGroup.recordOne t

/-- One step of TopologyGroup.Register (topologygroup.go lines 125 to 132). -/
def TopologyGroup.registerOne (t : TopologyGroup) (d : String) : TopologyGroup :=
  match lookupD t.domains d with
  | some _ => t
  | none =>
      { t with
        domains := t.domains ++ [(d, 0)]
        emptyDomains := d :: t.emptyDomains }

/-- TopologyGroup.Register over its variadic argument list. -/
def TopologyGroup.Register (t : TopologyGroup) (ds : List String) : TopologyGroup :=
  ds.foldl TopologyGroup.registerOne t

/-- The label value a node carries for a key (GetLabels()[key]). -/
def KNode.labelValue (n : KNode) (k : String) : Option String :=
  (n.labels.find? (fun p => p.1 == k)).map (fun p => p.2)

/-- The nodes of the cluster carrying the topology key with value d
(the nodes map built at topologygroup.go lines 171 to 183). -/
def TopologyGroup.nodesFor (t : TopologyGroup) (d : String) : List KNode :=
  t.clusterNodes.filter (fun n => n.labelValue t.Key == some d)

/-- The blocked empty domains (topologygroup.go lines 184 to 203).  The
volume-compatibility check on a domain is abstracted as a predicate. -/
def TopologyGroup.blockedDomains (t : TopologyGroup)
    (volumeCompatible : String → Bool) : List String :=
  t.emptyDomains.filter (fun d =>
    let ns := t.nodesFor d
    if volumeCompatible d && ns.isEmpty then false
    else !(ns.any (fun n => n.labelValue t.Key == some d && t.nodeFilterMatches n)))

/-- math.MaxInt32, the sentinel used by the Go loops. -/
def maxInt32 : Int := 2147483647

/-- v1.LabelHostname. -/
def labelHostname : String := "kubernetes.io/hostname"

/-- TopologyGroup.domainMinCount (topologygroup.go lines 232 to 253). -/
def TopologyGroup.domainMinCount (t : TopologyGroup) (podDomains : Requirement)
    (blocked : List String) : Int :=
  if t.Key = labelHostname then 0
  else
    let eligible := t.domains.filter
      (fun p => podDomains.Has p.1 && !(blocked.contains p.1))
    let m := eligible.foldl (fun acc p => if p.2 < acc then p.2 else acc) maxInt32
    match t.minDomains with
    | some md => if (eligible.length : Int) < md then 0 else m
    | none => m

/-- One iteration of the selection loop of nextDomainTopologySpread
(topologygroup.go lines 210 to 224): keep the domain when it is a node
domain, not blocked, within maxSkew of the global minimum, and strictly
below the best count seen so far. -/
def spreadStep (nodeDomains : Requirement) (blocked : List String)
    (selfSelecting : Bool) (maxSkew mn : Int)
    (acc : String × Int) (p : String × Int) : String × Int :=
  if nodeDomains.Has p.1 ∧ ¬ blocked.contains p.1 then
    let count := if selfSelecting then p.2 + 1 else p.2
    if count - mn ≤ maxSkew ∧ count < acc.2 then (p.1, count) else acc
  else acc

/-- The selection loop of nextDomainTopologySpread (topologygroup.go lines
208 to 224), as a fold over the domain entries with the accumulator
(minDomain, minCount) started at the empty string and math.MaxInt32. -/
def spreadFold (nodeDomains : Requirement) (blocked : List String)
    (selfSelecting : Bool) (maxSkew mn : Int)
    (doms : List (String × Int)) : String × Int :=
  doms.foldl (spreadStep nodeDomains blocked selfSelecting maxSkew mn)
    ("", maxInt32)

/-- TopologyGroup.nextDomainTopologySpread (topologygroup.go lines 170 to 230). -/
def TopologyGroup.nextDomainTopologySpread (t : TopologyGroup) (pod : KPod)
    (podDomains nodeDomains : Requirement)
    (volumeCompatible : String → Bool) : Requirement :=
  let blocked := t.blockedDomains volumeCompatible
  let mn := t.domainMinCount podDomains blocked
  let selfSelecting := t.selects pod
  let r := spreadFold nodeDomains blocked selfSelecting t.maxSkew mn t.domains
  if r.1 = "" then NewRequirement podDomains.key ReqOp.opDoesNotExist []
  else NewRequirement podDomains.key ReqOp.opIn [r.1]

/-- A mutation of a TopologyGroup: one Record call or one Register call. -/
inductive TGOp
  | recordOp (ds : List String)
  | registerOp (ds : List String)

/-- Apply one mutation. -/
def TopologyGroup.applyOp (t : TopologyGroup) : TGOp → TopologyGroup
  | TGOp.recordOp ds => t.Record ds
  | TGOp.registerOp ds => t.Register ds

/-- Apply a sequence of mutations. -/
def TopologyGroup.applyOps (t : TopologyGroup) (ops : List TGOp) : TopologyGroup :=
  ops.foldl TopologyGroup.applyOp t

/-- The number of times a Record call of this mutation mentions a domain. -/
def opCount (op : TGOp) (d : String) : Nat :=
  match op with
  | TGOp.recordOp ds => ds.count d
  | TGOp.registerOp _ => 0

/-- The number of times a sequence of mutations records a domain. -/
def recCount (ops : List TGOp) (d : String) : Nat :=
  (ops.map (fun op => opCount op d)).sum

/-- The bookkeeping invariant of a group whose domain d has been recorded
rc d times: d is empty exactly when it is a key that was never recorded,
the stored count is the int32 wrap of the record count, and a domain that
is not a key was never recorded. -/
def WrapInv (rc : String → Nat) (t : TopologyGroup) : Prop :=
  ∀ d : String,
    (d ∈ t.emptyDomains ↔ lookupD t.domains d ≠ none ∧ rc d = 0)
    ∧ (∀ c : Int, lookupD t.domains d = some c → c = wrap32 (rc d))
    ∧ (lookupD t.domains d = none → rc d = 0)

/-- The group of the C9 counterexample: one registered domain, then 2 to
the 32 Record calls on it, wrapping its int32 count back to zero while it
stays out of emptyDomains. -/
def tC9x : TopologyGroup :=
  (NewTopologyGroup "topology.kubernetes.io/zone" 1 none []
    (fun _ => true) (fun _ => true) ["zone-a"]).applyOps
    [TGOp.recordOp (List.replicate 4294967296 "zone-a")]

/-- The small concrete group used to witness the amended C9. -/
def tC9W : TopologyGroup :=
  (NewTopologyGroup "topology.kubernetes.io/zone" 1 none []
    (fun _ => true) (fun _ => true) ["zone-a"]).applyOps
    [TGOp.recordOp ["zone-a"]]

/-- The count the selection loop compares: the recorded pod count, plus one
when the pod being placed selects itself. -/
def adjustedCount (selfSelecting : Bool) (c : Int) : Int :=
  if selfSelecting then c + 1 else c

/-- The condition under which the selection loop may pick a domain entry:
node domain, not blocked, and within maxSkew of the global minimum mn. -/
def StepCond (nd : Requirement) (bl : List String) (ss : Bool) (ms mn : Int)
    (p : String × Int) : Prop :=
  (nd.Has p.1 ∧ ¬ bl.contains p.1) ∧ adjustedCount ss p.2 - mn ≤ ms

instance (nd : Requirement) (bl : List String) (ss : Bool) (ms mn : Int)
    (p : String × Int) : Decidable (StepCond nd bl ss ms mn p) := by
  unfold StepCond; infer_instance

/-- A domain entry of the group that the claim calls eligible: in the node
domains, not a blocked empty domain, and within maxSkew of the minimum
count that domainMinCount computes. -/
def SpreadEligible (t : TopologyGroup) (pod : KPod)
    (podDomains nodeDomains : Requirement) (vc : String → Bool)
    (p : String × Int) : Prop :=
  StepCond nodeDomains (t.blockedDomains vc) (t.selects pod) t.maxSkew
    (t.domainMinCount podDomains (t.blockedDomains vc)) p

instance (t : TopologyGroup) (pod : KPod) (podDomains nodeDomains : Requirement)
    (vc : String → Bool) (p : String × Int) :
    Decidable (SpreadEligible t pod podDomains nodeDomains vc p) := by
  unfold SpreadEligible; infer_instance

/-- The group on which the claim as stated fails: a single registered
domain named by the empty string.  It is reachable by NewTopologyGroup. -/
def tC10 : TopologyGroup :=
  NewTopologyGroup "topology.kubernetes.io/zone" 1 none []
    (fun _ => true) (fun _ => false) [""]

/-- The pod used in the C10 counterexample. -/
def podC10 : KPod := ⟨"p"⟩

/-- The pod-domain and node-domain requirement of the C10 counterexample. -/
def reqC10 : Requirement :=
  ⟨"topology.kubernetes.io/zone", ReqOp.opIn, [""]⟩

/-- The small concrete group used to witness C10. -/
def tC10W : TopologyGroup :=
  NewTopologyGroup "topology.kubernetes.io/zone" 1 none []
    (fun _ => true) (fun _ => false) ["zone-a"]

/-- The requirement used to witness C10. -/
def reqC10W : Requirement :=
  ⟨"topology.kubernetes.io/zone", ReqOp.opIn, ["zone-a"]⟩

/-- The zone label key of the Z-1 scenario. -/
def zoneKey : String := "topology.kubernetes.io/zone"

/-- A node of the Z-1 scenario, carrying only its zone label. -/
def zoneNode (z : String) : KNode := ⟨[(zoneKey, z)]⟩

/-- The topology group of the Z-1 scenario as the simulation sees it: the
three zonal nodes are in cluster state, the spread selector matches the
pods, one pod is recorded in zone 1 and one in zone 3, and the displaced
zone 2 pod is the one being placed, leaving zone 2 an empty domain. -/
def tZ1 : TopologyGroup :=
  ((NewTopologyGroup zoneKey 1 none
      [zoneNode "test-zone-1", zoneNode "test-zone-2", zoneNode "test-zone-3"]
      (fun _ => true) (fun _ => true)
      ["test-zone-1", "test-zone-2", "test-zone-3"]).Record
    ["test-zone-1"]).Record ["test-zone-3"]

/-- The zone requirement of the Z-1 scenario: all three zones allowed. -/
def reqZ1 : Requirement :=
  ⟨zoneKey, ReqOp.opIn, ["test-zone-1", "test-zone-2", "test-zone-3"]⟩

/-- The displaced pod of the Z-1 scenario. -/
def podZ1 : KPod := ⟨"displaced"⟩

/-! ### Part 2: the consolidation decision engine, modelled from the spec.
The engine sources are not under src (only their test suite is), so the
definitions below are modelled from the design document, section by
section. -/

/-- Modelled from the spec: capacity type of an offering (section 3);
the engine sources are missing from the tree. -/
inductive CapacityType
  | onDemand
  | spot
deriving DecidableEq

/-- Modelled from the spec: the pod facts consulted by the classifier, the
PDB gate and the cost model (sections 4.1 and 4.2). -/
structure PodInfo where
  controllerOwned : Bool
  doNotEvict : Bool
  doNotDisrupt : Bool
  blockingPDB : Bool
  pdbAlwaysAllowUnhealthy : Bool
  ready : Bool
deriving DecidableEq

/-- Modelled from the spec: the candidate view of a node (section 3); the
price field carries the minimum available offering price compatible with
the owning node pool, and poolCatalogHealthy is the negation of the
instance-type-catalog error condition. -/
structure CandidateNode where
  name : String
  instanceTypeName : String
  capacityType : CapacityType
  price : Int
  expireAfter : Int
  age : Int
  doNotDisrupt : Bool
  doNotConsolidate : Bool
  initialized : Bool
  hasPool : Bool
  poolCatalogHealthy : Bool
  pods : List PodInfo
deriving DecidableEq

/-- Modelled from the spec: one permitted concrete choice inside a
replacement node claim, an instance type at an offering (section 3). -/
structure PermittedChoice where
  instanceTypeName : String
  capacityType : CapacityType
  price : Int
deriving DecidableEq

/-- Modelled from the spec: a NewNodeClaim carries a requirement set and
the executor may bind any permitted choice at launch (section 3). -/
structure NewNodeClaim where
  permitted : List PermittedChoice
deriving DecidableEq

/-- The maximum of two integers, written out so it computes. -/
def intMax (a b : Int) : Int := if a ≤ b then b else a

/-- Modelled from the spec: the worst-case permitted price of a
replacement, the maximum over its permitted choices (sections 3 and 9). -/
def NewNodeClaim.worstPrice (r : NewNodeClaim) : Int :=
  (r.permitted.map (fun c => c.price)).foldr intMax 0

/-- Modelled from the spec: the action of a command (section 3). -/
inductive Action
  | delete
  | replace
deriving DecidableEq

/-- Modelled from the spec: the method that produced a command (section 3). -/
inductive Method
  | emptyM
  | singleM
  | multiM
deriving DecidableEq

/-- Modelled from the spec: a disruption command (section 3). -/
structure Command where
  action : Action
  candidates : List CandidateNode
  replacements : List NewNodeClaim
  method : Method
deriving DecidableEq

/-- Modelled from the spec: a pod whose PDB currently forbids eviction;
an unhealthy pod under an AlwaysAllow unhealthy-eviction policy bypasses
the check (section 4.1). -/
def podBlocksEviction (p : PodInfo) : Bool :=
  p.blockingPDB && !(p.pdbAlwaysAllowUnhealthy && !p.ready)

/-- Modelled from the spec: the candidate classifier rejection rule
(section 4.1). -/
def classifiable (n : CandidateNode) : Bool :=
  !n.doNotDisrupt && !n.doNotConsolidate
    && !(n.pods.any (fun p => p.doNotEvict || p.doNotDisrupt))
    && n.initialized && n.hasPool && n.poolCatalogHealthy

/-- Modelled from the spec: classify filters live nodes into disruption
candidates (section 4.1). -/
def classify (ns : List CandidateNode) : List CandidateNode :=
  ns.filter classifiable

/-- Modelled from the spec: per-pod disruption cost, one per pod plus an
ownership term that is one for controller-owned pods and larger (ten) for
bare pods (section 4.2 leaves the bare constant open). -/
def podCost (p : PodInfo) : Int :=
  (if p.controllerOwned then 1 else 10) + 1

/-- The pod-cost sum of a candidate. -/
def podCostSum (n : CandidateNode) : Int := (n.pods.map podCost).sum

/-- Modelled from the spec: the numerator of the lifetime multiplier, the
remaining lifetime clamped at zero; the multiplier is one when no expiry
is set (section 4.2). -/
def lifetimeRemaining (n : CandidateNode) : Int :=
  if n.expireAfter ≤ 0 then 1
  else if n.expireAfter - n.age < 0 then 0 else n.expireAfter - n.age

/-- The denominator of the lifetime multiplier. -/
def lifetimeScale (n : CandidateNode) : Int :=
  if n.expireAfter ≤ 0 then 1 else n.expireAfter

/-- Modelled from the spec: the disruption cost of a candidate is its
pod-cost sum times the lifetime multiplier remaining over expire-after;
two costs are compared by cross multiplication with the positive
denominators so that everything stays in integers (section 4.2). -/
def costLE (a b : CandidateNode) : Prop :=
  podCostSum a * lifetimeRemaining a * lifetimeScale b
    ≤ podCostSum b * lifetimeRemaining b * lifetimeScale a

instance (a b : CandidateNode) : Decidable (costLE a b) := by
  unfold costLE; infer_instance

/-- Strict disruption-cost comparison, by cross multiplication. -/
def costLT (a b : CandidateNode) : Prop :=
  podCostSum a * lifetimeRemaining a * lifetimeScale b
    < podCostSum b * lifetimeRemaining b * lifetimeScale a

instance (a b : CandidateNode) : Decidable (costLT a b) := by
  unfold costLT; infer_instance

/-- Insertion into a cost-ascending candidate list. -/
def insertByCost (c : CandidateNode) : List CandidateNode → List CandidateNode
  | [] => [c]
  | d :: rest =>
      if costLE c d then c :: d :: rest
      else d :: insertByCost c rest

/-- Modelled from the spec: candidates sorted ascending by disruption cost;
strategies consume this order (section 4.2). -/
def sortByCost : List CandidateNode → List CandidateNode
  | [] => []
  | c :: rest => insertByCost c (sortByCost rest)

/-- Modelled from the spec: the outcome data of one run of the external
scheduler simulator (section 4.3). -/
structure SimResult where
  success : Bool
  wouldFitOnUninitialized : Bool
  newNodeClaims : List NewNodeClaim
deriving DecidableEq

/-- Modelled from the spec: the adapter verdict on a simulation
(section 4.3). -/
inductive SimOutcome
  | ok (claims : List NewNodeClaim)
  | rejected (eventMsg : String)
deriving DecidableEq

/-- Modelled from the spec: the adapter rule; a displaced pod that would
only fit on a non-initialized existing node rejects the command with the
corresponding event, and a failed simulation rejects it with the
not-all-pods event (sections 4.3 and 6). -/
def evaluateSim (r : SimResult) : SimOutcome :=
  if r.wouldFitOnUninitialized then
    SimOutcome.rejected "would schedule against a non-initialized node"
  else if !r.success then SimOutcome.rejected "not all pods would schedule"
  else SimOutcome.ok r.newNodeClaims

/-- Sum of candidate prices. -/
def sumPrices (cs : List CandidateNode) : Int :=
  (cs.map (fun c => c.price)).sum

/-- Sum of worst-case replacement prices. -/
def sumWorst (rs : List NewNodeClaim) : Int :=
  (rs.map NewNodeClaim.worstPrice).sum

/-- Modelled from the spec: the single-node step for one candidate; delete
when no replacement is needed, replace only when the worst-case permitted
replacement price is strictly below the candidate price, skip otherwise
(sections 4.4.2 and 4.4.4), and never evict a PDB-blocked pod
(section 4.1). -/
def singleNodeStep (sim : CandidateNode → SimResult) (c : CandidateNode) :
    Option Command × List String :=
  if c.pods.any podBlocksEviction then (none, [])
  else
    match evaluateSim (sim c) with
    | SimOutcome.rejected msg => (none, [msg])
    | SimOutcome.ok [] =>
        (some ⟨Action.delete, [c], [], Method.singleM⟩, [])
    | SimOutcome.ok [r] =>
        if r.worstPrice < c.price then
          (some ⟨Action.replace, [c], [r], Method.singleM⟩, [])
        else (none, [])
    | SimOutcome.ok (_ :: _ :: _) => (none, [])

/-- Modelled from the spec: single-node consolidation walks candidates in
cost order under a wall-clock budget, here a fuel of one unit per
candidate; on exhaustion it returns no command (sections 4.4.2 and 4.6). -/
def singleSearch (sim : CandidateNode → SimResult) :
    List CandidateNode → Nat → Option Command × List String
  | _, 0 => (none, [])
  | [], _ => (none, [])
  | c :: rest, Nat.succ fuel =>
      match singleNodeStep sim c with
      | (some cmd, evs) => (some cmd, evs)
      | (none, evs) =>
          let r := singleSearch sim rest fuel
          (r.1, evs ++ r.2)

/-- Modelled from the spec: the same-type filter; a command may not delete
a candidate whose instance type appears among the permitted types of a
proposed replacement (section 4.4.3 and testable invariant 5). -/
def sameTypeOK (cands : List CandidateNode) (rs : List NewNodeClaim) : Bool :=
  !(cands.any (fun c => rs.any (fun r =>
      r.permitted.any (fun p => p.instanceTypeName == c.instanceTypeName))))

/-- Modelled from the spec: acceptance of the first k candidates in
multi-node consolidation; at most one replacement, strict price
improvement, the same-type filter, and no PDB-blocked pod (section 4.4.3). -/
def multiAccept (simN : Nat → SimResult) (cands : List CandidateNode)
    (k : Nat) : Option Command :=
  let chosen := cands.take k
  if chosen.any (fun c => c.pods.any podBlocksEviction) then none
  else
    match evaluateSim (simN k) with
    | SimOutcome.rejected _ => none
    | SimOutcome.ok rs =>
        if rs.length ≤ 1 ∧ sumWorst rs < sumPrices chosen
            ∧ sameTypeOK chosen rs then
          some ⟨(if rs.isEmpty then Action.delete else Action.replace),
            chosen, rs, Method.multiM⟩
        else none

/-- Modelled from the spec: binary search for the largest accepted k under
a wall-clock budget, here a fuel of one unit per probe; on exhaustion the
best command found so far is returned (sections 4.4.3 and 4.6). -/
def multiSearch (accept : Nat → Option Command) :
    Nat → Nat → Nat → Option Command → Option Command
  | _, _, 0, best => best
  | lo, hi, Nat.succ fuel, best =>
      if lo > hi then best
      else
        match accept ((lo + hi) / 2) with
        | some cmd => multiSearch accept ((lo + hi) / 2 + 1) hi fuel (some cmd)
        | none => multiSearch accept lo ((lo + hi) / 2 - 1) fuel best

/-- Modelled from the spec: multi-node consolidation searches the sorted
candidates for the largest accepted count of at least two (section 4.4.3). -/
def multiNodeConsolidate (simN : Nat → SimResult)
    (cands : List CandidateNode) (fuel : Nat) : Option Command :=
  multiSearch (multiAccept simN cands) 2 cands.length fuel none

/-- Modelled from the spec: a node is empty when it hosts no pods; daemon
pods are abstracted away (section 4.4.1). -/
def isEmptyNode (c : CandidateNode) : Bool := c.pods.isEmpty

/-- Modelled from the spec: delete all empty candidates in one batch, no
replacement (section 4.4.1). -/
def emptyMethod (cands : List CandidateNode) : Option Command :=
  let es := cands.filter isEmptyNode
  if es.isEmpty then none
  else some ⟨Action.delete, es, [], Method.emptyM⟩

/-- Modelled from the spec: the orchestrator runs Empty, then Multi, then
Single over the classified and cost-sorted candidates (sections 4.4.3
and 4.6). -/
def reconcile (sim : CandidateNode → SimResult) (simN : Nat → SimResult)
    (nodes : List CandidateNode) (fuelM fuelS : Nat) :
    Option Command × List String :=
  match emptyMethod (sortByCost (classify nodes)) with
  | some cmd => (some cmd, [])
  | none =>
      match multiNodeConsolidate simN (sortByCost (classify nodes)) fuelM with
      | some cmd => (some cmd, [])
      | none => singleSearch sim (sortByCost (classify nodes)) fuelS

/-! ### Concrete scenarios for the engine model -/

/-- A clean controller-owned ready pod. -/
def podW : PodInfo :=
  ⟨true, false, false, false, false, true⟩

/-- A candidate on-demand node priced 5, hosting one clean pod. -/
def nodeW : CandidateNode :=
  { name := "n1"
    instanceTypeName := "current-on-demand"
    capacityType := CapacityType.onDemand
    price := 5
    expireAfter := 0
    age := 0
    doNotDisrupt := false
    doNotConsolidate := false
    initialized := true
    hasPool := true
    poolCatalogHealthy := true
    pods := [podW] }

/-- A replacement claim whose single permitted choice costs 2. -/
def claimW : NewNodeClaim :=
  ⟨[⟨"replacement", CapacityType.spot, 2⟩]⟩

/-- A replacement claim whose worst permitted spot price is 10. -/
def claimW2 : NewNodeClaim :=
  ⟨[⟨"expensive-spot", CapacityType.spot, 10⟩]⟩

/-- A simulator that answers every removal with one cheap replacement. -/
def simW : CandidateNode → SimResult := fun _ => ⟨true, false, [claimW]⟩

/-- A simulator that answers every removal with one expensive replacement. -/
def simW2 : CandidateNode → SimResult := fun _ => ⟨true, false, [claimW2]⟩

/-- A multi-node simulator whose simulations fail. -/
def simNW : Nat → SimResult := fun _ => ⟨false, false, []⟩

/-- The replace command the witness scenario produces. -/
def cmdW : Command :=
  ⟨Action.replace, [nodeW], [claimW], Method.singleM⟩

/-- A simulation whose displaced pods would only fit on a non-initialized
existing node. -/
def r3 : SimResult := ⟨false, true, []⟩

/-- A simulator returning that non-initialized verdict. -/
def sim3 : CandidateNode → SimResult := fun _ => r3

/-- A multi-node simulator returning that non-initialized verdict. -/
def simN3 : Nat → SimResult := fun _ => r3

/-- The first same-type node of the C4 scenario: one pod. -/
def n1C4 : CandidateNode :=
  { nodeW with
    name := "n1"
    instanceTypeName := "cheap"
    price := 1
    pods := [podW] }

/-- The second same-type node of the C4 scenario: two pods. -/
def n2C4 : CandidateNode :=
  { nodeW with
    name := "n2"
    instanceTypeName := "cheap"
    price := 1
    pods := [podW, podW] }

/-- A replacement claim permitting only the same cheap instance type. -/
def rCheap4 : NewNodeClaim :=
  ⟨[⟨"cheap", CapacityType.spot, 1⟩]⟩

/-- The single-node simulator of the C4 scenario: removing either node
lets its pods fit on the other, so no replacement is needed. -/
def simC4 : CandidateNode → SimResult := fun _ => ⟨true, false, []⟩

/-- The multi-node simulator of the C4 scenario: removing both nodes needs
one identical cheap replacement. -/
def simNC4 : Nat → SimResult := fun _ => ⟨true, false, [rCheap4]⟩

/-- Two distinct-type nodes used to witness the multi-node path. -/
def m1C4 : CandidateNode :=
  { nodeW with
    name := "m1"
    instanceTypeName := "exp"
    price := 5 }

/-- The second distinct-type node used to witness the multi-node path. -/
def m2C4 : CandidateNode :=
  { nodeW with
    name := "m2"
    instanceTypeName := "exp"
    price := 5 }

/-- A multi-node simulator that answers with one cheap replacement of a
different type. -/
def simNW4 : Nat → SimResult := fun _ => ⟨true, false, [claimW]⟩

/-- The multi-node replace command of that witness scenario. -/
def cmdW4 : Command :=
  ⟨Action.replace, [m1C4, m2C4], [claimW], Method.multiM⟩

/-- Modelled from the spec: the state of the validation gate between
proposing and committing a command; the engine sources are missing, so the
gate is modelled on the waitable clock of sections 4.5 and 5. -/
structure GateState where
  now : Int
  deadline : Int
  waiting : Bool
  blocked : Bool
  decided : Option Bool
deriving DecidableEq

/-- Modelled from the spec: an event during the stabilization delay, a
fake-clock step or a protected pod landing on a candidate (section 4.5). -/
inductive GateEvent
  | step (dt : Int)
  | podLands
deriving DecidableEq

/-- Modelled from the spec: at proposal time the gate parks on the clock
with a waiter, the deadline one T-validate away (sections 4.5 and 5). -/
def gateInit (now tValidate : Int) : GateState :=
  ⟨now, now + tValidate, true, false, none⟩

/-- Modelled from the spec: the gate transition; a decision is absorbing,
a landing protected pod invalidates the command, and on expiry the gate
wakes and commits only when the command is still valid (section 4.5). -/
def gateStep (s : GateState) (e : GateEvent) : GateState :=
  match s.decided with
  | some _ => s
  | none =>
      match e with
      | GateEvent.podLands => { s with blocked := true }
      | GateEvent.step dt =>
          if s.deadline ≤ s.now + dt then
            { s with
              now := s.now + dt
              waiting := false
              decided := some (!s.blocked) }
          else { s with now := s.now + dt }

/-- Run the gate over a sequence of events. -/
def gateRun (s : GateState) (es : List GateEvent) : GateState :=
  es.foldl gateStep s

/-- The gate invariant: a pending gate is parked with a waiter, and any
decision was taken at or after the deadline. -/
def GateInv (dl : Int) (s : GateState) : Prop :=
  s.deadline = dl
  ∧ (s.decided = none → s.waiting = true)
  ∧ ((∃ b, s.decided = some b) → dl ≤ s.now)

/-- A consolidatable node of the C6 timeout fleet. -/
def nodeC6 : CandidateNode :=
  { nodeW with
    name := "fleet"
    instanceTypeName := "cheap"
    price := 1 }

/-- The twenty-node fleet of the C6 timeout scenario. -/
def nodesC6 : List CandidateNode := List.replicate 20 nodeC6

/-- The multi-node simulator of the C6 scenario: every removal succeeds
with no replacement needed. -/
def simNC6 : Nat → SimResult := fun _ => ⟨true, false, []⟩

/-- The partial command the timed-out search commits: the first probe of
the binary search on 2..20 accepts eleven nodes. -/
def cmdC6 : Command :=
  ⟨Action.delete, List.replicate 11 nodeC6, [], Method.multiM⟩

/-- The older node of the T-1 scenario: two pods, age 2 of 3. -/
def olderT1 : CandidateNode :=
  { nodeW with
    name := "older"
    instanceTypeName := "cheap"
    price := 1
    expireAfter := 3
    age := 2
    pods := [podW, podW] }

/-- The younger node of the T-1 scenario: one pod, age 0 of 3. -/
def youngerT1 : CandidateNode :=
  { nodeW with
    name := "younger"
    instanceTypeName := "cheap"
    price := 1
    expireAfter := 3
    age := 0
    pods := [podW] }

/-- The single-node simulator of the T-1 scenario: either node can be
removed with its pods absorbed by the other. -/
def simT1 : CandidateNode → SimResult := fun _ => ⟨true, false, []⟩

/-- The multi-node simulator of the T-1 scenario: removing both fails. -/
def simNT1 : Nat → SimResult := fun _ => ⟨false, false, []⟩

/-- The command the engine produces in the T-1 scenario. -/
def cmdT1 : Command :=
  ⟨Action.delete, [olderT1], [], Method.singleM⟩

/-! ## Theorems about the TopologyGroup embedding -/

theorem wrap32_wrap32_add (x y : Int) :
    wrap32 (wrap32 x + y) = wrap32 (x + y) := by
  unfold wrap32
  omega

theorem wrap32_zero : wrap32 0 = 0 := by decide

theorem lookupD_mapIncrement_self (m : List (String × Int)) (d : String) :
    lookupD (mapIncrement m d) d = some (wrap32 ((lookupD m d).getD 0 + 1)) := by
  induction m with
  | nil =>
      simp [mapIncrement, lookupD]
      decide
  | cons p rest ih =>
      by_cases h : p.1 = d
      · simp [mapIncrement, lookupD, h]
      · simp [mapIncrement, lookupD, h, ih]

theorem lookupD_mapIncrement_other (m : List (String × Int)) (d e : String)
    (hne : e ≠ d) : lookupD (mapIncrement m d) e = lookupD m e := by
  have hde : ¬ d = e := fun hx => hne hx.symm
  induction m with
  | nil => simp [mapIncrement, lookupD, hde]
  | cons p rest ih =>
      by_cases h : p.1 = d
      · simp [mapIncrement, lookupD, h, hde]
      · by_cases h2 : p.1 = e <;>
          simp [mapIncrement, lookupD, h, h2, hne, hde, ih]

theorem lookupD_append_none (m m' : List (String × Int)) (d : String)
    (h : lookupD m d = none) : lookupD (m ++ m') d = lookupD m' d := by
  induction m with
  | nil => simp
  | cons p rest ih =>
      by_cases hp : p.1 = d
      · simp [lookupD, hp] at h
      · simp [lookupD, hp] at h ⊢
        exact ih h

theorem lookupD_append_some (m m' : List (String × Int)) (d : String) (c : Int)
    (h : lookupD m d = some c) : lookupD (m ++ m') d = some c := by
  induction m with
  | nil => simp [lookupD] at h
  | cons p rest ih =>
      by_cases hp : p.1 = d
      · simp [lookupD, hp] at h ⊢; exact h
      · simp [lookupD, hp] at h ⊢
        exact ih h

theorem lookupD_map_zero (init : List String) (d : String) :
    lookupD (init.map (fun e => (e, (0 : Int)))) d
      = if d ∈ init then some 0 else none := by
  induction init with
  | nil => simp [lookupD]
  | cons a rest ih =>
      by_cases h : a = d
      · simp [lookupD, h]
      · have hda : ¬ d = a := fun hx => h hx.symm
        simp [lookupD, h, hda, ih]

theorem wrapInv_congr (rc rc' : String → Nat) (t : TopologyGroup)
    (hrc : ∀ e, rc e = rc' e) (h : WrapInv rc t) : WrapInv rc' t := by
  intro d
  obtain ⟨h1, h2, h3⟩ := h d
  rw [← hrc d]
  exact ⟨h1, h2, h3⟩

theorem wrapInv_new (key : String) (maxSkew : Int) (minDomains : Option Int)
    (cn : List KNode) (nf : KNode → Bool) (sel : KPod → Bool)
    (init : List String) :
    WrapInv (fun _ => 0)
      (NewTopologyGroup key maxSkew minDomains cn nf sel init) := by
  intro d
  have hl := lookupD_map_zero init d
  refine ⟨?_, ?_, fun _ => rfl⟩
  · show d ∈ init ↔ lookupD (init.map (fun e => (e, (0 : Int)))) d ≠ none ∧ 0 = 0
    by_cases hmem : d ∈ init
    · rw [if_pos hmem] at hl
      simp [hmem, hl]
    · rw [if_neg hmem] at hl
      simp [hmem, hl]
  · intro c hc
    have hc2 : lookupD (init.map (fun e => (e, (0 : Int)))) d = some c := hc
    show c = wrap32 ((0 : Nat) : Int)
    by_cases hmem : d ∈ init
    · rw [if_pos hmem] at hl
      rw [hl] at hc2
      injection hc2 with hc3
      rw [← hc3]
      decide
    · rw [if_neg hmem] at hl
      rw [hl] at hc2
      exact Option.noConfusion hc2

theorem wrapInv_recordOne (rc : String → Nat) (t : TopologyGroup) (d : String)
    (h : WrapInv rc t) :
    WrapInv (fun e => if e = d then rc e + 1 else rc e) (t.recordOne d) := by
  intro e
  by_cases he : e = d
  · subst he
    refine ⟨?_, ?_, ?_⟩
    · constructor
      · intro hmem
        exact absurd (List.of_mem_filter hmem) (by simp)
      · rintro ⟨_, hrc⟩
        have hrc2 : (if e = e then rc e + 1 else rc e) = 0 := hrc
        rw [if_pos rfl] at hrc2
        omega
    · intro c hc
      have hc2 : lookupD (mapIncrement t.domains e) e = some c := hc
      rw [lookupD_mapIncrement_self] at hc2
      injection hc2 with hc3
      show c = wrap32 (((if e = e then rc e + 1 else rc e) : Nat) : Int)
      rw [if_pos rfl, ← hc3]
      cases hl : lookupD t.domains e with
      | none =>
          have h0 : rc e = 0 := (h e).2.2 hl
          rw [h0]
          norm_num
      | some c0 =>
          have hc0 : c0 = wrap32 (rc e) := (h e).2.1 c0 hl
          simp only [Option.getD_some]
          rw [hc0, wrap32_wrap32_add]
          norm_cast
    · intro hnone
      have hn2 : lookupD (mapIncrement t.domains e) e = none := hnone
      rw [lookupD_mapIncrement_self] at hn2
      exact Option.noConfusion hn2
  · refine ⟨?_, ?_, ?_⟩
    · show e ∈ (t.recordOne d).emptyDomains
        ↔ lookupD (t.recordOne d).domains e ≠ none
          ∧ (if e = d then rc e + 1 else rc e) = 0
      rw [if_neg he]
      have hl2 : lookupD (t.recordOne d).domains e = lookupD t.domains e :=
        lookupD_mapIncrement_other t.domains d e he
      rw [hl2]
      constructor
      · intro hmem
        exact (h e).1.1 (List.mem_of_mem_filter hmem)
      · intro hx
        exact List.mem_filter.2 ⟨(h e).1.2 hx, by simpa using he⟩
    · intro c hc
      show c = wrap32 (((if e = d then rc e + 1 else rc e) : Nat) : Int)
      rw [if_neg he]
      have hc2 : lookupD t.domains e = some c := by
        rw [← lookupD_mapIncrement_other t.domains d e he]
        exact hc
      exact (h e).2.1 c hc2
    · intro hnone
      show (if e = d then rc e + 1 else rc e) = 0
      rw [if_neg he]
      have hn2 : lookupD t.domains e = none := by
        rw [← lookupD_mapIncrement_other t.domains d e he]
        exact hnone
      exact (h e).2.2 hn2

theorem wrapInv_registerOne (rc : String → Nat) (t : TopologyGroup)
    (d : String) (h : WrapInv rc t) : WrapInv rc (t.registerOne d) := by
  intro e
  unfold TopologyGroup.registerOne
  cases hl : lookupD t.domains d with
  | some c => exact h e
  | none =>
      have hrc0 : rc d = 0 := (h d).2.2 hl
      by_cases he : e = d
      · subst he
        refine ⟨?_, ?_, fun _ => hrc0⟩
        · rw [lookupD_append_none _ _ _ hl]
          simp [lookupD, hrc0]
        · intro c hc
          rw [lookupD_append_none _ _ _ hl] at hc
          simp [lookupD] at hc
          rw [← hc, hrc0]
          decide
      · have hde : ¬ d = e := fun hx => he hx.symm
        cases hle : lookupD t.domains e with
        | none =>
            have h0 : rc e = 0 := (h e).2.2 hle
            refine ⟨?_, ?_, fun _ => h0⟩
            · rw [lookupD_append_none _ _ _ hle]
              have h1 := (h e).1
              rw [hle] at h1
              simp only [List.mem_cons]
              simp [lookupD, hde, he, h1]
            · intro c hc
              rw [lookupD_append_none _ _ _ hle] at hc
              simp [lookupD, hde] at hc
        | some c0 =>
            refine ⟨?_, ?_, ?_⟩
            · rw [lookupD_append_some _ _ _ _ hle]
              have h1 := (h e).1
              rw [hle] at h1
              simp only [List.mem_cons]
              simp [he, h1]
            · intro c hc
              rw [lookupD_append_some _ _ _ _ hle] at hc
              injection hc with hcc
              rw [← hcc]
              exact (h e).2.1 c0 hle
            · intro hnone
              rw [lookupD_append_some _ _ _ _ hle] at hnone
              exact Option.noConfusion hnone

theorem wrapInv_record (ds : List String) :
    ∀ (rc : String → Nat) (t : TopologyGroup), WrapInv rc t
    → WrapInv (fun e => rc e + ds.count e) (t.Record ds) := by
  induction ds with
  | nil =>
      intro rc t h
      refine wrapInv_congr rc _ t ?_ h
      intro e
      simp
  | cons a rest ih =>
      intro rc t h
      have h2 := ih _ _ (wrapInv_recordOne rc t a h)
      refine wrapInv_congr _ _ _ ?_ h2
      intro e
      by_cases he : e = a
      · subst he
        simp [List.count_cons]
        omega
      · simp [List.count_cons, he]

theorem wrapInv_register (ds : List String) :
    ∀ (rc : String → Nat) (t : TopologyGroup), WrapInv rc t
    → WrapInv rc (t.Register ds) := by
  induction ds with
  | nil => intro rc t h; exact h
  | cons a rest ih =>
      intro rc t h
      exact ih rc (t.registerOne a) (wrapInv_registerOne rc t a h)

theorem wrapInv_applyOps (ops : List TGOp) :
    ∀ (rc : String → Nat) (t : TopologyGroup), WrapInv rc t
    → WrapInv (fun e => rc e + recCount ops e) (t.applyOps ops) := by
  induction ops with
  | nil =>
      intro rc t h
      refine wrapInv_congr rc _ t ?_ h
      intro e
      simp [recCount]
  | cons op rest ih =>
      intro rc t h
      cases op with
      | recordOp ds =>
          have h2 := ih _ _ (wrapInv_record ds rc t h)
          refine wrapInv_congr _ _ _ ?_ h2
          intro e
          simp [recCount, opCount]
          omega
      | registerOp ds =>
          have h2 := ih _ _ (wrapInv_register ds rc t h)
          refine wrapInv_congr _ _ _ ?_ h2
          intro e
          simp [recCount, opCount]

/-- C9 (amended): for every TopologyGroup created by NewTopologyGroup and
mutated by a sequence of Register and Record calls that records the domain
d fewer than 2 to the 32 times, d is in emptyDomains exactly when it is a
key of the domains map with stored count 0; and every Record call on d
stores the int32-wrapped increment of its count and removes d from
emptyDomains.  The record-count bound is necessary: the stored count is a
Go int32 and wraps back to 0 after 2 to the 32 increments. -/
theorem C9_emptyDomains_invariant (key : String) (maxSkew : Int)
    (minDomains : Option Int) (cn : List KNode) (nf : KNode → Bool)
    (sel : KPod → Bool) (init : List String) (ops : List TGOp) (d : String)
    (hbound : recCount ops d < 4294967296) :
    (d ∈ ((NewTopologyGroup key maxSkew minDomains cn nf sel init).applyOps
        ops).emptyDomains
      ↔ lookupD ((NewTopologyGroup key maxSkew minDomains cn nf sel
        init).applyOps ops).domains d = some 0)
    ∧ lookupD (((NewTopologyGroup key maxSkew minDomains cn nf sel
        init).applyOps ops).Record [d]).domains d
        = some (wrap32 ((lookupD ((NewTopologyGroup key maxSkew minDomains cn
            nf sel init).applyOps ops).domains d).getD 0 + 1))
    ∧ d ∉ (((NewTopologyGroup key maxSkew minDomains cn nf sel
        init).applyOps ops).Record [d]).emptyDomains := by
  have hinv := wrapInv_applyOps ops (fun _ => 0)
    (NewTopologyGroup key maxSkew minDomains cn nf sel init)
    (wrapInv_new key maxSkew minDomains cn nf sel init)
  obtain ⟨h1, h2, h3⟩ := hinv d
  refine ⟨?_, ?_, ?_⟩
  · constructor
    · intro hmem
      obtain ⟨hne, hz⟩ := h1.1 hmem
      have hz2 : recCount ops d = 0 := by
        have hz3 : 0 + recCount ops d = 0 := hz
        omega
      cases hl : lookupD ((NewTopologyGroup key maxSkew minDomains cn nf sel
          init).applyOps ops).domains d with
      | none => exact absurd hl hne
      | some c =>
          have hcw : c = wrap32 (0 + recCount ops d) := h2 c hl
          rw [hz2] at hcw
          rw [hcw]
          norm_num [wrap32_zero]
    · intro hl
      refine h1.2 ⟨by rw [hl]; exact fun hcon => Option.noConfusion hcon, ?_⟩
      have hw : (0 : Int) = wrap32 (0 + recCount ops d) := h2 0 hl
      show 0 + recCount ops d = 0
      unfold wrap32 at hw
      omega
  · simp [TopologyGroup.Record, TopologyGroup.recordOne,
      lookupD_mapIncrement_self]
  · simp only [TopologyGroup.Record, List.foldl_cons, List.foldl_nil]
    intro hmem
    exact absurd (List.of_mem_filter hmem) (by simp)

theorem recCount_singleton_record (ds : List String) (d : String) :
    recCount [TGOp.recordOp ds] d = ds.count d := by
  simp [recCount, opCount]

theorem wrapInv_applyOps_recCount (key : String) (maxSkew : Int)
    (minDomains : Option Int) (cn : List KNode) (nf : KNode → Bool)
    (sel : KPod → Bool) (init : List String) (ops : List TGOp) :
    WrapInv (fun e => recCount ops e)
      ((NewTopologyGroup key maxSkew minDomains cn nf sel init).applyOps
        ops) := by
  have h := wrapInv_applyOps ops (fun _ => 0)
    (NewTopologyGroup key maxSkew minDomains cn nf sel init)
    (wrapInv_new key maxSkew minDomains cn nf sel init)
  refine wrapInv_congr _ _ _ ?_ h
  intro e
  simp

/-- C9 counterexample: after one registration and 2 to the 32 Record calls
on the same domain, the stored int32 count has wrapped back to 0 while the
domain is no longer in emptyDomains, so the claim as stated (over any
sequence of Record and Register calls) is false at this input. -/
theorem C9_counterexample :
    lookupD tC9x.domains "zone-a" = some 0
    ∧ "zone-a" ∉ tC9x.emptyDomains := by
  have hinv := wrapInv_applyOps_recCount "topology.kubernetes.io/zone" 1
    none [] (fun _ => true) (fun _ => true) ["zone-a"]
    [TGOp.recordOp (List.replicate 4294967296 "zone-a")]
  obtain ⟨h1, h2, h3⟩ := hinv "zone-a"
  have hcnt : recCount [TGOp.recordOp (List.replicate 4294967296 "zone-a")]
      "zone-a" = 4294967296 := by
    rw [recCount_singleton_record, List.count_replicate_self]
  unfold tC9x
  have hne : lookupD ((NewTopologyGroup "topology.kubernetes.io/zone" 1 none
      [] (fun _ => true) (fun _ => true) ["zone-a"]).applyOps
      [TGOp.recordOp (List.replicate 4294967296 "zone-a")]).domains "zone-a"
      ≠ none := by
    intro hl
    have h0 : recCount
        [TGOp.recordOp (List.replicate 4294967296 "zone-a")] "zone-a"
        = 0 := h3 hl
    rw [hcnt] at h0
    omega
  obtain ⟨c, hl⟩ := Option.ne_none_iff_exists'.1 hne
  have hcw : c = wrap32 ((recCount
      [TGOp.recordOp (List.replicate 4294967296 "zone-a")] "zone-a" : Nat))
      := h2 c hl
  rw [hcnt] at hcw
  have hc0 : c = 0 := by
    rw [hcw]
    decide
  constructor
  · rw [hl, hc0]
  · intro hmem
    obtain ⟨_, hz⟩ := h1.1 hmem
    have hz2 : recCount
        [TGOp.recordOp (List.replicate 4294967296 "zone-a")] "zone-a"
        = 0 := hz
    rw [hcnt] at hz2
    omega

/-- Witness for C9: the amended invariant applied at a concrete group with
a single Record call, the record-count bound discharged by evaluation. -/
theorem C9_emptyDomains_invariant_witness :
    recCount [TGOp.recordOp ["zone-a"]] "zone-a" < 4294967296
    ∧ (("zone-a" ∈ tC9W.emptyDomains
        ↔ lookupD tC9W.domains "zone-a" = some 0)
      ∧ lookupD (tC9W.Record ["zone-a"]).domains "zone-a"
          = some (wrap32 ((lookupD tC9W.domains "zone-a").getD 0 + 1))
      ∧ "zone-a" ∉ (tC9W.Record ["zone-a"]).emptyDomains) :=
  ⟨by decide,
   C9_emptyDomains_invariant "topology.kubernetes.io/zone" 1 none []
     (fun _ => true) (fun _ => true) ["zone-a"] [TGOp.recordOp ["zone-a"]]
     "zone-a" (by decide)⟩

theorem spreadFold_go (nd : Requirement) (bl : List String) (ss : Bool)
    (ms mn : Int) (doms : List (String × Int)) :
    ∀ acc : String × Int,
      (doms.foldl (spreadStep nd bl ss ms mn) acc = acc
        ∧ ∀ p ∈ doms, StepCond nd bl ss ms mn p
            → acc.2 ≤ adjustedCount ss p.2)
      ∨ (∃ p, p ∈ doms ∧ StepCond nd bl ss ms mn p
          ∧ doms.foldl (spreadStep nd bl ss ms mn) acc
              = (p.1, adjustedCount ss p.2)
          ∧ adjustedCount ss p.2 < acc.2
          ∧ ∀ q ∈ doms, StepCond nd bl ss ms mn q
              → adjustedCount ss p.2 ≤ adjustedCount ss q.2) := by
  induction doms with
  | nil =>
      intro acc
      left
      simp
  | cons p rest ih =>
      intro acc
      by_cases hC : nd.Has p.1 ∧ ¬ bl.contains p.1
      · by_cases hU : adjustedCount ss p.2 - mn ≤ ms
          ∧ adjustedCount ss p.2 < acc.2
        · have hstep : spreadStep nd bl ss ms mn acc p
              = (p.1, adjustedCount ss p.2) := by
            show (if nd.Has p.1 ∧ ¬ bl.contains p.1 then
                if adjustedCount ss p.2 - mn ≤ ms
                    ∧ adjustedCount ss p.2 < acc.2 then
                  (p.1, adjustedCount ss p.2)
                else acc
              else acc) = (p.1, adjustedCount ss p.2)
            rw [if_pos hC, if_pos hU]
          rcases ih (p.1, adjustedCount ss p.2) with ⟨heq, hmin⟩ | ⟨q, hq, hcq, heq, hlt, hmin⟩
          · right
            refine ⟨p, by simp, ⟨hC, hU.1⟩, ?_, hU.2, ?_⟩
            · simpa [hstep] using heq
            · intro q hqm hcond
              rcases List.mem_cons.1 hqm with h | h
              · subst h; exact le_refl _
              · exact hmin q h hcond
          · right
            refine ⟨q, List.mem_cons_of_mem _ hq, hcq, ?_, lt_trans hlt hU.2, ?_⟩
            · simpa [hstep] using heq
            · intro q2 hq2 hcond
              rcases List.mem_cons.1 hq2 with h | h
              · subst h; exact le_of_lt hlt
              · exact hmin q2 h hcond
        · have hstep : spreadStep nd bl ss ms mn acc p = acc := by
            show (if nd.Has p.1 ∧ ¬ bl.contains p.1 then
                if adjustedCount ss p.2 - mn ≤ ms
                    ∧ adjustedCount ss p.2 < acc.2 then
                  (p.1, adjustedCount ss p.2)
                else acc
              else acc) = acc
            rw [if_pos hC, if_neg hU]
          rcases ih acc with ⟨heq, hmin⟩ | ⟨q, hq, hcq, heq, hlt, hmin⟩
          · left
            refine ⟨by simpa [hstep] using heq, ?_⟩
            intro q hqm hcond
            rcases List.mem_cons.1 hqm with h | h
            · subst h
              by_contra hcon
              push_neg at hcon
              exact hU ⟨hcond.2, hcon⟩
            · exact hmin q h hcond
          · right
            refine ⟨q, List.mem_cons_of_mem _ hq, hcq, ?_, hlt, ?_⟩
            · simpa [hstep] using heq
            · intro q2 hq2 hcond
              rcases List.mem_cons.1 hq2 with h | h
              · subst h
                have hge : acc.2 ≤ adjustedCount ss q2.2 := by
                  by_contra hcon
                  push_neg at hcon
                  exact hU ⟨hcond.2, hcon⟩
                exact le_trans (le_of_lt hlt) hge
              · exact hmin q2 h hcond
      · have hstep : spreadStep nd bl ss ms mn acc p = acc := by
          show (if nd.Has p.1 ∧ ¬ bl.contains p.1 then
              if adjustedCount ss p.2 - mn ≤ ms
                  ∧ adjustedCount ss p.2 < acc.2 then
                (p.1, adjustedCount ss p.2)
              else acc
            else acc) = acc
          rw [if_neg hC]
        rcases ih acc with ⟨heq, hmin⟩ | ⟨q, hq, hcq, heq, hlt, hmin⟩
        · left
          refine ⟨by simpa [hstep] using heq, ?_⟩
          intro q hqm hcond
          rcases List.mem_cons.1 hqm with h | h
          · subst h; exact absurd hcond.1 hC
          · exact hmin q h hcond
        · right
          refine ⟨q, List.mem_cons_of_mem _ hq, hcq, ?_, hlt, ?_⟩
          · simpa [hstep] using heq
          · intro q2 hq2 hcond
            rcases List.mem_cons.1 hq2 with h | h
            · subst h; exact absurd hcond.1 hC
            · exact hmin q2 h hcond

/-- C8 (Scenario Z-1): with one pod recorded in zone 1 and zone 3 and the
zone 2 pod displaced, the spread choice for the replacement is constrained
to exactly test-zone-2, and recording the displaced pod there restores a
skew of one pod per zone. -/
theorem C8_zonal_spread_preserved :
    tZ1.nextDomainTopologySpread podZ1 reqZ1 reqZ1 (fun _ => true)
      = NewRequirement zoneKey ReqOp.opIn ["test-zone-2"]
    ∧ lookupD (tZ1.Record ["test-zone-2"]).domains "test-zone-1" = some 1
    ∧ lookupD (tZ1.Record ["test-zone-2"]).domains "test-zone-2" = some 1
    ∧ lookupD (tZ1.Record ["test-zone-2"]).domains "test-zone-3" = some 1 := by
  refine ⟨by decide, by decide, by decide, by decide⟩

/-! ## Theorems about the engine model -/

theorem mem_insertByCost (c a : CandidateNode) (l : List CandidateNode) :
    a ∈ insertByCost c l ↔ a = c ∨ a ∈ l := by
  induction l with
  | nil => simp [insertByCost]
  | cons d rest ih =>
      by_cases h : costLE c d
      · simp [insertByCost, h]
      · simp [insertByCost, h, ih]
        tauto

theorem mem_sortByCost (a : CandidateNode) (l : List CandidateNode) :
    a ∈ sortByCost l ↔ a ∈ l := by
  induction l with
  | nil => simp [sortByCost]
  | cons c rest ih => simp [sortByCost, mem_insertByCost, ih]

theorem mem_classify (a : CandidateNode) (l : List CandidateNode)
    (h : a ∈ classify l) : a ∈ l ∧ classifiable a = true :=
  ⟨List.mem_of_mem_filter h, List.of_mem_filter h⟩

theorem sumPrices_nonneg (cs : List CandidateNode)
    (h : ∀ c ∈ cs, 0 ≤ c.price) : 0 ≤ sumPrices cs := by
  induction cs with
  | nil => simp [sumPrices]
  | cons c rest ih =>
      simp only [sumPrices, List.map_cons, List.sum_cons]
      have h1 := h c (by simp)
      have h2 : 0 ≤ sumPrices rest := ih (fun c2 hc2 => h c2 (by simp [hc2]))
      simp only [sumPrices] at h2
      exact add_nonneg h1 h2

theorem sumPrices_pos (cs : List CandidateNode) (hne : cs ≠ [])
    (hpos : ∀ c ∈ cs, 0 < c.price) : 0 < sumPrices cs := by
  cases cs with
  | nil => exact absurd rfl hne
  | cons c rest =>
      simp only [sumPrices, List.map_cons, List.sum_cons]
      have h1 := hpos c (by simp)
      have h2 : 0 ≤ sumPrices rest :=
        sumPrices_nonneg rest (fun c2 hc2 => le_of_lt (hpos c2 (by simp [hc2])))
      simp only [sumPrices] at h2
      exact add_pos_of_pos_of_nonneg h1 h2

theorem singleNodeStep_some (sim : CandidateNode → SimResult)
    (c : CandidateNode) (cmd : Command) (evs : List String)
    (h : singleNodeStep sim c = (some cmd, evs)) :
    cmd.candidates = [c] ∧ cmd.method = Method.singleM
    ∧ c.pods.any podBlocksEviction = false
    ∧ (cmd.replacements = []
        ∨ ∃ r, cmd.replacements = [r] ∧ r.worstPrice < c.price) := by
  unfold singleNodeStep at h
  by_cases hb : c.pods.any podBlocksEviction = true
  · rw [if_pos hb] at h
    simp at h
  · rw [if_neg hb] at h
    have hb2 : c.pods.any podBlocksEviction = false := by
      simpa using hb
    cases hS : evaluateSim (sim c) with
    | rejected msg => rw [hS] at h; simp at h
    | ok claims =>
        rw [hS] at h
        rcases claims with _ | ⟨r, _ | ⟨r2, rest⟩⟩
        · simp only [Prod.mk.injEq, Option.some.injEq] at h
          obtain ⟨h1, h2⟩ := h
          subst h1
          exact ⟨rfl, rfl, hb2, Or.inl rfl⟩
        · by_cases hp : r.worstPrice < c.price
          · simp only [if_pos hp, Prod.mk.injEq, Option.some.injEq] at h
            obtain ⟨h1, h2⟩ := h
            subst h1
            exact ⟨rfl, rfl, hb2, Or.inr ⟨r, rfl, hp⟩⟩
          · simp only [if_neg hp] at h
            simp at h
        · simp at h

theorem singleSearch_some (sim : CandidateNode → SimResult) :
    ∀ (cands : List CandidateNode) (fuel : Nat) (cmd : Command),
      (singleSearch sim cands fuel).1 = some cmd
      → ∃ c ∈ cands, ∃ evs, singleNodeStep sim c = (some cmd, evs) := by
  intro cands
  induction cands with
  | nil =>
      intro fuel cmd h
      cases fuel <;> simp [singleSearch] at h
  | cons c rest ih =>
      intro fuel cmd h
      cases fuel with
      | zero => simp [singleSearch] at h
      | succ fuel =>
          unfold singleSearch at h
          cases hstep : singleNodeStep sim c with
          | mk o evs1 =>
              cases o with
              | some cmd2 =>
                  rw [hstep] at h
                  simp at h
                  exact ⟨c, by simp, evs1, by rw [hstep, h]⟩
              | none =>
                  rw [hstep] at h
                  simp at h
                  obtain ⟨c2, hc2, evs2, hs2⟩ := ih fuel cmd h
                  exact ⟨c2, by simp [hc2], evs2, hs2⟩

theorem multiSearch_some (accept : Nat → Option Command) :
    ∀ (fuel lo hi : Nat) (best : Option Command) (cmd : Command),
      multiSearch accept lo hi fuel best = some cmd
      → best = some cmd ∨ ∃ k, accept k = some cmd := by
  intro fuel
  induction fuel with
  | zero =>
      intro lo hi best cmd h
      exact Or.inl h
  | succ fuel ih =>
      intro lo hi best cmd h
      unfold multiSearch at h
      by_cases hlh : lo > hi
      · rw [if_pos hlh] at h
        exact Or.inl h
      · rw [if_neg hlh] at h
        cases hacc : accept ((lo + hi) / 2) with
        | some cmd2 =>
            rw [hacc] at h
            rcases ih _ _ _ _ h with h1 | h2
            · right
              refine ⟨(lo + hi) / 2, ?_⟩
              rw [hacc, h1]
            · exact Or.inr h2
        | none =>
            rw [hacc] at h
            exact ih _ _ _ _ h

theorem multiAccept_some (simN : Nat → SimResult) (cands : List CandidateNode)
    (k : Nat) (cmd : Command) (h : multiAccept simN cands k = some cmd) :
    cmd.candidates = cands.take k ∧ cmd.method = Method.multiM
    ∧ cmd.candidates.any (fun c => c.pods.any podBlocksEviction) = false
    ∧ sumWorst cmd.replacements < sumPrices cmd.candidates
    ∧ sameTypeOK cmd.candidates cmd.replacements = true := by
  unfold multiAccept at h
  by_cases hb : (cands.take k).any (fun c => c.pods.any podBlocksEviction) = true
  · rw [if_pos hb] at h
    simp at h
  · rw [if_neg hb] at h
    have hb2 : (cands.take k).any (fun c => c.pods.any podBlocksEviction)
        = false := by simpa using hb
    cases hS : evaluateSim (simN k) with
    | rejected msg => rw [hS] at h; simp at h
    | ok rs =>
        rw [hS] at h
        by_cases hcond : rs.length ≤ 1 ∧ sumWorst rs < sumPrices (cands.take k)
            ∧ sameTypeOK (cands.take k) rs = true
        · simp only [if_pos hcond, Option.some.injEq] at h
          subst h
          exact ⟨rfl, rfl, hb2, hcond.2.1, hcond.2.2⟩
        · simp only [if_neg hcond] at h
          simp at h

theorem emptyMethod_some (cands : List CandidateNode) (cmd : Command)
    (h : emptyMethod cands = some cmd) :
    cmd.candidates = cands.filter isEmptyNode ∧ cmd.replacements = []
    ∧ cmd.method = Method.emptyM ∧ cmd.candidates ≠ [] := by
  unfold emptyMethod at h
  by_cases he : (cands.filter isEmptyNode).isEmpty = true
  · rw [if_pos he] at h
    simp at h
  · rw [if_neg he] at h
    rw [Option.some.injEq] at h
    cases h
    refine ⟨rfl, rfl, rfl, ?_⟩
    simpa [List.isEmpty_iff] using he

theorem reconcile_some (sim : CandidateNode → SimResult)
    (simN : Nat → SimResult) (nodes : List CandidateNode)
    (fuelM fuelS : Nat) (cmd : Command)
    (h : (reconcile sim simN nodes fuelM fuelS).1 = some cmd) :
    emptyMethod (sortByCost (classify nodes)) = some cmd
    ∨ (∃ k, multiAccept simN (sortByCost (classify nodes)) k = some cmd)
    ∨ (∃ c ∈ sortByCost (classify nodes), ∃ evs,
        singleNodeStep sim c = (some cmd, evs)) := by
  unfold reconcile at h
  cases hE : emptyMethod (sortByCost (classify nodes)) with
  | some cmd2 =>
      rw [hE] at h
      simp at h
      left
      simp [h]
  | none =>
      rw [hE] at h
      cases hM : multiNodeConsolidate simN (sortByCost (classify nodes)) fuelM with
      | some cmd2 =>
          rw [hM] at h
          simp at h
          right; left
          have hms := multiSearch_some
            (multiAccept simN (sortByCost (classify nodes))) fuelM 2
            (sortByCost (classify nodes)).length none cmd
            (by rw [← h]; exact hM)
          rcases hms with h1 | h2
          · simp at h1
          · exact h2
      | none =>
          rw [hM] at h
          right; right
          exact singleSearch_some sim _ fuelS cmd h

theorem any_eq_false_mem {α : Type} {l : List α} {f : α → Bool}
    (h : l.any f = false) : ∀ x ∈ l, f x = false := by
  intro x hx
  cases hfx : f x
  · rfl
  · have hT : l.any f = true := List.any_eq_true.2 ⟨x, hx, hfx⟩
    rw [h] at hT
    cases hT

theorem classifiable_spec (n : CandidateNode) (h : classifiable n = true) :
    n.doNotDisrupt = false ∧ n.doNotConsolidate = false
    ∧ ∀ p ∈ n.pods, p.doNotEvict = false ∧ p.doNotDisrupt = false := by
  unfold classifiable at h
  simp only [Bool.and_eq_true, Bool.not_eq_true'] at h
  obtain ⟨⟨⟨⟨⟨h1, h2⟩, h3⟩, h4⟩, h5⟩, h6⟩ := h
  refine ⟨h1, h2, ?_⟩
  intro p hp
  have hpf := any_eq_false_mem h3 p hp
  simp only [Bool.or_eq_false_iff] at hpf
  exact hpf

theorem podBlocksEviction_false (p : PodInfo)
    (h : podBlocksEviction p = false) :
    p.blockingPDB = true
    → p.pdbAlwaysAllowUnhealthy = true ∧ p.ready = false := by
  intro hb
  unfold podBlocksEviction at h
  rw [hb] at h
  simp at h
  exact h

theorem command_candidate_facts (sim : CandidateNode → SimResult)
    (simN : Nat → SimResult) (nodes : List CandidateNode)
    (fuelM fuelS : Nat) (cmd : Command)
    (h : (reconcile sim simN nodes fuelM fuelS).1 = some cmd) :
    ∀ c ∈ cmd.candidates,
      c ∈ nodes ∧ classifiable c = true
      ∧ c.pods.any podBlocksEviction = false := by
  intro c hc
  have hmemnodes : ∀ a : CandidateNode, a ∈ sortByCost (classify nodes)
      → a ∈ nodes ∧ classifiable a = true := by
    intro a ha
    exact mem_classify a nodes ((mem_sortByCost a (classify nodes)).1 ha)
  rcases reconcile_some sim simN nodes fuelM fuelS cmd h with
    hE | ⟨k, hM⟩ | ⟨c0, hc0, evs, hS⟩
  · obtain ⟨h1, _, _, _⟩ := emptyMethod_some _ _ hE
    rw [h1] at hc
    have hmem := List.mem_of_mem_filter hc
    have hemp := List.of_mem_filter hc
    obtain ⟨ha, hb⟩ := hmemnodes c hmem
    refine ⟨ha, hb, ?_⟩
    simp only [isEmptyNode, List.isEmpty_iff] at hemp
    simp [hemp]
  · obtain ⟨h1, _, h3, _, _⟩ := multiAccept_some _ _ _ _ hM
    have hmem : c ∈ sortByCost (classify nodes) := by
      rw [h1] at hc
      exact List.take_subset _ _ hc
    obtain ⟨ha, hb⟩ := hmemnodes c hmem
    exact ⟨ha, hb, any_eq_false_mem h3 c hc⟩
  · obtain ⟨h1, _, h3, _⟩ := singleNodeStep_some _ _ _ _ hS
    rw [h1] at hc
    simp at hc
    subst hc
    obtain ⟨ha, hb⟩ := hmemnodes c hc0
    exact ⟨ha, hb, h3⟩

/-- C1: every command the engine produces strictly improves cost, the sum
of candidate prices strictly exceeding the sum of worst-case permitted
replacement prices; and a single replacement whose worst-case permitted
price is at least the candidate price (a spot or on-demand offering alike)
yields no replace command, so the candidate survives the step. -/
theorem C1_price_improvement :
    (∀ (sim : CandidateNode → SimResult) (simN : Nat → SimResult)
        (nodes : List CandidateNode) (fuelM fuelS : Nat) (cmd : Command),
      (∀ n ∈ nodes, 0 < n.price)
      → (reconcile sim simN nodes fuelM fuelS).1 = some cmd
      → sumWorst cmd.replacements < sumPrices cmd.candidates)
    ∧ (∀ (sim : CandidateNode → SimResult) (c : CandidateNode)
        (r : NewNodeClaim),
      evaluateSim (sim c) = SimOutcome.ok [r]
      → c.price ≤ r.worstPrice
      → (singleNodeStep sim c).1 = none) := by
  constructor
  · intro sim simN nodes fuelM fuelS cmd hpos h
    have hmem := command_candidate_facts sim simN nodes fuelM fuelS cmd h
    rcases reconcile_some sim simN nodes fuelM fuelS cmd h with
      hE | ⟨k, hM⟩ | ⟨c, hc, evs, hS⟩
    · obtain ⟨hc1, hc2, _, hc4⟩ := emptyMethod_some _ _ hE
      rw [hc2]
      have h0 : sumWorst [] = 0 := by simp [sumWorst]
      rw [h0]
      refine sumPrices_pos _ hc4 ?_
      intro c2 hc2mem
      exact hpos c2 (hmem c2 hc2mem).1
    · obtain ⟨_, _, _, h4, _⟩ := multiAccept_some _ _ _ _ hM
      exact h4
    · obtain ⟨h1, _, _, h4⟩ := singleNodeStep_some _ _ _ _ hS
      rcases h4 with h4 | ⟨r, hr, hrp⟩
      · rw [h4, h1]
        have h0 : sumWorst [] = 0 := by simp [sumWorst]
        rw [h0]
        refine sumPrices_pos _ (by simp) ?_
        intro c2 hc2
        simp at hc2
        subst hc2
        exact hpos c2 (hmem c2 (by rw [h1]; simp)).1
      · rw [hr, h1]
        have hw : sumWorst [r] = r.worstPrice := by simp [sumWorst]
        have hp : sumPrices [c] = c.price := by simp [sumPrices]
        rw [hw, hp]
        exact hrp
  · intro sim c r hok hge
    unfold singleNodeStep
    by_cases hb : c.pods.any podBlocksEviction = true
    · rw [if_pos hb]
    · rw [if_neg hb, hok]
      have hnl : ¬ r.worstPrice < c.price := not_lt.2 hge
      simp [hnl]

/-- C2: no command touches a candidate carrying the do-not-disrupt or
legacy do-not-consolidate marker, or hosting a pod marked do-not-evict or
do-not-disrupt, or hosting a pod under a blocking PDB, except an unhealthy
pod whose PDB policy is AlwaysAllow. -/
theorem C2_no_protected_candidates (sim : CandidateNode → SimResult)
    (simN : Nat → SimResult) (nodes : List CandidateNode)
    (fuelM fuelS : Nat) (cmd : Command)
    (h : (reconcile sim simN nodes fuelM fuelS).1 = some cmd) :
    ∀ c ∈ cmd.candidates,
      c.doNotDisrupt = false ∧ c.doNotConsolidate = false
      ∧ (∀ p ∈ c.pods, p.doNotEvict = false ∧ p.doNotDisrupt = false)
      ∧ (∀ p ∈ c.pods, p.blockingPDB = true
          → p.pdbAlwaysAllowUnhealthy = true ∧ p.ready = false) := by
  intro c hc
  obtain ⟨hn, hcl, hpdb⟩ :=
    command_candidate_facts sim simN nodes fuelM fuelS cmd h c hc
  obtain ⟨h1, h2, h3⟩ := classifiable_spec c hcl
  refine ⟨h1, h2, h3, ?_⟩
  intro p hp hb
  exact podBlocksEviction_false p (any_eq_false_mem hpdb p hp) hb

/-- Witness for C1: the price-improvement invariant and the no-expensive-
replacement rule applied at the concrete scenario nodes. -/
theorem C1_price_improvement_witness :
    (∀ n ∈ [nodeW], 0 < n.price)
    ∧ sumWorst cmdW.replacements < sumPrices cmdW.candidates
    ∧ nodeW.price ≤ claimW2.worstPrice
    ∧ (singleNodeStep simW2 nodeW).1 = none :=
  ⟨by decide,
   C1_price_improvement.1 simW simNW [nodeW] 1 1 cmdW (by decide) (by decide),
   by decide,
   C1_price_improvement.2 simW2 nodeW claimW2 (by decide) (by decide)⟩

/-- Witness for C2: the protection invariant applied at the concrete
replace command of the witness scenario. -/
theorem C2_no_protected_candidates_witness :
    (reconcile simW simNW [nodeW] 1 1).1 = some cmdW
    ∧ ∀ c ∈ cmdW.candidates,
        c.doNotDisrupt = false ∧ c.doNotConsolidate = false
        ∧ (∀ p ∈ c.pods, p.doNotEvict = false ∧ p.doNotDisrupt = false)
        ∧ (∀ p ∈ c.pods, p.blockingPDB = true
            → p.pdbAlwaysAllowUnhealthy = true ∧ p.ready = false) :=
  ⟨by decide,
   C2_no_protected_candidates simW simNW [nodeW] 1 1 cmdW (by decide)⟩

/-- C3: a simulation in which a displaced pod would only fit on a
non-initialized existing node is rejected with the corresponding event;
the single-node step produces no command and emits the event, and the
multi-node acceptance produces no command either. -/
theorem C3_uninitialized_rule (r : SimResult)
    (hr : r.wouldFitOnUninitialized = true) :
    evaluateSim r
      = SimOutcome.rejected "would schedule against a non-initialized node"
    ∧ (∀ (sim : CandidateNode → SimResult) (c : CandidateNode),
        sim c = r → c.pods.any podBlocksEviction = false
        → singleNodeStep sim c
            = (none, ["would schedule against a non-initialized node"]))
    ∧ (∀ (simN : Nat → SimResult) (cands : List CandidateNode) (k : Nat),
        simN k = r → multiAccept simN cands k = none) := by
  have hev : evaluateSim r
      = SimOutcome.rejected "would schedule against a non-initialized node" := by
    unfold evaluateSim
    rw [if_pos hr]
  refine ⟨hev, ?_, ?_⟩
  · intro sim c hsim hblk
    unfold singleNodeStep
    simp [hblk, hsim, hev]
  · intro simN cands k hsim
    unfold multiAccept
    by_cases hb : (cands.take k).any (fun c => c.pods.any podBlocksEviction)
        = true
    · rw [if_pos hb]
    · rw [if_neg hb, hsim, hev]

/-- Witness for C3: the rule applied at a concrete rejected simulation. -/
theorem C3_uninitialized_rule_witness :
    r3.wouldFitOnUninitialized = true
    ∧ evaluateSim r3
        = SimOutcome.rejected "would schedule against a non-initialized node"
    ∧ singleNodeStep sim3 nodeW
        = (none, ["would schedule against a non-initialized node"])
    ∧ multiAccept simN3 [nodeW] 1 = none :=
  ⟨by decide,
   (C3_uninitialized_rule r3 (by decide)).1,
   (C3_uninitialized_rule r3 (by decide)).2.1 sim3 nodeW rfl (by decide),
   (C3_uninitialized_rule r3 (by decide)).2.2 simN3 [nodeW] 1 rfl⟩

theorem sameTypeOK_spec (cands : List CandidateNode)
    (rs : List NewNodeClaim) (h : sameTypeOK cands rs = true) :
    ∀ c ∈ cands, ∀ r ∈ rs, ∀ p ∈ r.permitted,
      p.instanceTypeName ≠ c.instanceTypeName := by
  unfold sameTypeOK at h
  simp only [Bool.not_eq_true'] at h
  intro c hc r hr p hp
  have h1 := any_eq_false_mem h c hc
  have h2 := any_eq_false_mem h1 r hr
  have h3 := any_eq_false_mem h2 p hp
  simpa using h3

/-- C4: a multi-node command never deletes a candidate whose instance type
is among the permitted types of a replacement; and on two nodes of the
same cheapest type the engine deletes only the node with fewer pods and
launches nothing. -/
theorem C4_same_type_filter :
    (∀ (simN : Nat → SimResult) (cands : List CandidateNode) (fuel : Nat)
        (cmd : Command),
      multiNodeConsolidate simN cands fuel = some cmd
      → ∀ c ∈ cmd.candidates, ∀ r ∈ cmd.replacements, ∀ p ∈ r.permitted,
          p.instanceTypeName ≠ c.instanceTypeName)
    ∧ n1C4.instanceTypeName = n2C4.instanceTypeName
    ∧ n1C4.pods.length < n2C4.pods.length
    ∧ (reconcile simC4 simNC4 [n1C4, n2C4] 5 5).1
        = some ⟨Action.delete, [n1C4], [], Method.singleM⟩ := by
  refine ⟨?_, by decide, by decide, by decide⟩
  intro simN cands fuel cmd h c hc r hr p hp
  unfold multiNodeConsolidate at h
  rcases multiSearch_some _ fuel 2 cands.length none cmd h with h1 | ⟨k, hk⟩
  · simp at h1
  · obtain ⟨_, _, _, _, h5⟩ := multiAccept_some _ _ _ _ hk
    exact sameTypeOK_spec _ _ h5 c hc r hr p hp

/-- Witness for C4: the same-type invariant applied at a concrete
multi-node replace command with a distinct replacement type. -/
theorem C4_same_type_filter_witness :
    multiNodeConsolidate simNW4 [m1C4, m2C4] 1 = some cmdW4
    ∧ ∀ c ∈ cmdW4.candidates, ∀ r ∈ cmdW4.replacements, ∀ p ∈ r.permitted,
        p.instanceTypeName ≠ c.instanceTypeName :=
  ⟨by decide,
   C4_same_type_filter.1 simNW4 [m1C4, m2C4] 1 cmdW4 (by decide)⟩

theorem gateStep_inv (dl : Int) (s : GateState) (e : GateEvent)
    (h : GateInv dl s) : GateInv dl (gateStep s e) := by
  obtain ⟨n, d, w, bl, dec⟩ := s
  obtain ⟨hd, hw, hs⟩ := h
  cases dec with
  | some b => exact ⟨hd, hw, hs⟩
  | none =>
      cases e with
      | podLands =>
          refine ⟨hd, fun _ => hw rfl, ?_⟩
          rintro ⟨b, hb⟩
          exact Option.noConfusion hb
      | step dt =>
          by_cases hexp : d ≤ n + dt
          · unfold gateStep
            simp only
            rw [if_pos hexp]
            refine ⟨hd, ?_, ?_⟩
            · intro hcon
              exact Option.noConfusion hcon
            · intro _
              have hd2 : d = dl := hd
              show dl ≤ n + dt
              omega
          · unfold gateStep
            simp only
            rw [if_neg hexp]
            refine ⟨hd, fun _ => hw rfl, ?_⟩
            rintro ⟨b, hb⟩
            exact Option.noConfusion hb

theorem gateRun_inv (dl : Int) (es : List GateEvent) :
    ∀ s : GateState, GateInv dl s → GateInv dl (gateRun s es) := by
  induction es with
  | nil => intro s h; exact h
  | cons e rest ih =>
      intro s h
      exact ih (gateStep s e) (gateStep_inv dl s e h)

theorem gateStep_blocked (s : GateState) (e : GateEvent)
    (hb : s.blocked = true) (hd : s.decided ≠ some true) :
    (gateStep s e).blocked = true ∧ (gateStep s e).decided ≠ some true := by
  obtain ⟨n, d, w, bl, dec⟩ := s
  cases dec with
  | some b => exact ⟨hb, hd⟩
  | none =>
      cases e with
      | podLands =>
          refine ⟨rfl, ?_⟩
          intro hcon
          exact Option.noConfusion hcon
      | step dt =>
          by_cases hexp : d ≤ n + dt
          · unfold gateStep
            simp only
            rw [if_pos hexp]
            have hb2 : bl = true := hb
            refine ⟨hb2, ?_⟩
            intro hcon
            rw [hb2] at hcon
            simp at hcon
          · unfold gateStep
            simp only
            rw [if_neg hexp]
            refine ⟨hb, ?_⟩
            intro hcon
            exact Option.noConfusion hcon

theorem gateBlockedRun (es : List GateEvent) :
    ∀ s : GateState, s.blocked = true → s.decided ≠ some true
    → (gateRun s es).decided ≠ some true := by
  induction es with
  | nil => intro s _ hd; exact hd
  | cons e rest ih =>
      intro s hb hd
      obtain ⟨hb2, hd2⟩ := gateStep_blocked s e hb hd
      exact ih (gateStep s e) hb2 hd2

theorem gateStep_podLands_pending (s : GateState) (h : s.decided = none) :
    (gateStep s GateEvent.podLands).blocked = true
    ∧ (gateStep s GateEvent.podLands).decided = none := by
  obtain ⟨n, d, w, bl, dec⟩ := s
  cases dec with
  | some b => exact Option.noConfusion h
  | none => exact ⟨rfl, rfl⟩

/-- C5: along any event trace, the gate commits only at or after the
deadline set one validation delay after the proposal; while undecided it
stays parked on the clock with a waiter; and once a protected pod lands on
a candidate while the gate is still pending, the command is never
committed, so no node is deleted and no replacement is created. -/
theorem C5_validation_gate (t0 tv : Int) (es : List GateEvent) :
    ((gateRun (gateInit t0 tv) es).decided = some true
      → t0 + tv ≤ (gateRun (gateInit t0 tv) es).now)
    ∧ ((gateRun (gateInit t0 tv) es).decided = none
      → (gateRun (gateInit t0 tv) es).waiting = true)
    ∧ (∀ es1 es2, es = es1 ++ GateEvent.podLands :: es2
      → (gateRun (gateInit t0 tv) es1).decided = none
      → (gateRun (gateInit t0 tv) es).decided ≠ some true) := by
  have hinv : GateInv (t0 + tv) (gateRun (gateInit t0 tv) es) := by
    refine gateRun_inv (t0 + tv) es (gateInit t0 tv) ⟨rfl, fun _ => rfl, ?_⟩
    rintro ⟨b, hb⟩
    exact Option.noConfusion hb
  refine ⟨?_, ?_, ?_⟩
  · intro hdec
    exact hinv.2.2 ⟨true, hdec⟩
  · intro hdec
    exact hinv.2.1 hdec
  · intro es1 es2 heq hpend
    subst heq
    have hsplit : gateRun (gateInit t0 tv)
        (es1 ++ GateEvent.podLands :: es2)
        = gateRun (gateStep (gateRun (gateInit t0 tv) es1)
            GateEvent.podLands) es2 := by
      simp [gateRun, List.foldl_append]
    rw [hsplit]
    obtain ⟨hb, hd⟩ :=
      gateStep_podLands_pending (gateRun (gateInit t0 tv) es1) hpend
    refine gateBlockedRun es2 _ hb ?_
    rw [hd]
    intro hcon
    exact Option.noConfusion hcon

/-- Witness for C5: a trace that commits exactly at the deadline, and a
trace in which a protected pod lands during the wait and the command is
aborted. -/
theorem C5_validation_gate_witness :
    (gateRun (gateInit 0 30) [GateEvent.step 30]).decided = some true
    ∧ 0 + 30 ≤ (gateRun (gateInit 0 30) [GateEvent.step 30]).now
    ∧ (gateRun (gateInit 0 30)
        ([GateEvent.step 10] ++ GateEvent.podLands :: [GateEvent.step 25])
      ).decided ≠ some true :=
  ⟨by decide,
   (C5_validation_gate 0 30 [GateEvent.step 30]).1 (by decide),
   (C5_validation_gate 0 30
      ([GateEvent.step 10] ++ GateEvent.podLands :: [GateEvent.step 25])).2.2
     [GateEvent.step 10] [GateEvent.step 25] rfl (by decide)⟩

/-- C6: a multi-node search that returns a command on exhausted budget
returns one accepted during the search; the single-node search returns no
command on an exhausted budget; and on the twenty-node fleet with a budget
of one probe, the committed partial command still deletes at least two
node claims. -/
theorem C6_strategy_timeouts :
    (∀ (accept : Nat → Option Command) (lo hi fuel : Nat) (cmd : Command),
      multiSearch accept lo hi fuel none = some cmd
      → ∃ k, accept k = some cmd)
    ∧ (∀ (sim : CandidateNode → SimResult) (cands : List CandidateNode),
      (singleSearch sim cands 0).1 = none)
    ∧ multiNodeConsolidate simNC6 nodesC6 1 = some cmdC6
    ∧ 2 ≤ cmdC6.candidates.length := by
  refine ⟨?_, ?_, by decide, by decide⟩
  · intro accept lo hi fuel cmd h
    rcases multiSearch_some accept fuel lo hi none cmd h with h1 | h2
    · simp at h1
    · exact h2
  · intro sim cands
    cases cands <;> rfl

/-- Witness for C6: the timeout rule applied at the concrete two-node
multi-node search that runs out of budget after its first probe. -/
theorem C6_strategy_timeouts_witness :
    ∃ k, multiAccept simNW4 [m1C4, m2C4] k = some cmdW4 :=
  C6_strategy_timeouts.1 (multiAccept simNW4 [m1C4, m2C4]) 2 2 1 cmdW4
    (by decide)

/-- C7 counterexample: in the T-1 scenario the engine deletes the older
node carrying two pods, not the younger node with one pod, so the claim as
stated is false at this input. -/
theorem C7_counterexample :
    (reconcile simT1 simNT1 [youngerT1, olderT1] 5 5).1 = some cmdT1
    ∧ cmdT1.candidates = [olderT1]
    ∧ youngerT1 ∉ cmdT1.candidates
    ∧ olderT1.pods.length = 2 ∧ youngerT1.pods.length = 1
    ∧ olderT1.age = 2 ∧ youngerT1.age = 0 ∧ olderT1.expireAfter = 3 := by
  decide

/-- C7 (amended): near expiry the lifetime multiplier outweighs pod count,
so the older two-pod node has the lower disruption cost, sorts first, and
is the node the engine deletes. -/
theorem C7_lifetime_tiebreak :
    costLT olderT1 youngerT1
    ∧ sortByCost [youngerT1, olderT1] = [olderT1, youngerT1]
    ∧ (reconcile simT1 simNT1 [youngerT1, olderT1] 5 5).1 = some cmdT1
    ∧ cmdT1.candidates = [olderT1] := by
  decide

end Karpenter
